import Mathlib

/-!
Verification development for the tabular-ingestion pipeline of
`src/app.py` (Nexus Dashboard).  The pandas DataFrame operations of the
pipeline are embedded shallowly: a spreadsheet cell is text, a number, a
boolean, or missing (`nan`); a DataFrame is an ordered list of named
columns; a raw grid is a list of rows together with its column count
(pandas pads short CSV rows with NaN, which we model by out-of-range
access defaulting to `nan`).
-/

set_option autoImplicit false

namespace Aura

/-- A spreadsheet cell as pandas sees it after `read_csv`: a string, a
number, a boolean, or the missing value `NaN`.  Numbers are modelled as
integers; the claims under study never depend on float rendering. -/
inductive Cell where
  | str (s : String)
  | num (n : Int)
  | bool (b : Bool)
  | nan
  deriving DecidableEq, Repr

/-- Python `str(x)` on a cell: strings unchanged, `NaN` renders as the
text `"nan"`, booleans as `"True"`/`"False"`. -/
def cellToStr : Cell → String
  | .str s => s
  | .num n => toString n
  | .bool b => if b then "True" else "False"
  | .nan => "nan"

/-- `pd.isna` on a cell. -/
def Cell.isNa : Cell → Bool
  | .nan => true
  | _ => false

/-- Whether a cell is string-typed. -/
def Cell.isStr : Cell → Bool
  | .str _ => true
  | _ => false

/-- ASCII lower-casing of one character, as Python `str.lower` acts on
the ASCII range (all keyword matching in the source is over ASCII). -/
def lowerChar (c : Char) : Char :=
  if 'A' ≤ c && c ≤ 'Z' then Char.ofNat (c.toNat + 32) else c

/-- Python `str.lower`. -/
def strLower (s : String) : String := ⟨s.data.map lowerChar⟩

/-- The whitespace stripped by Python `str.strip`. -/
def isSpaceChar (c : Char) : Bool :=
  c == ' ' || c == '\t' || c == '\n' || c == '\r' || c == '\x0b' || c == '\x0c'

/-- Python `str.strip` on a character list. -/
def trimChars (l : List Char) : List Char :=
  ((l.dropWhile isSpaceChar).reverse.dropWhile isSpaceChar).reverse

/-- Python `str.strip`. -/
def strTrim (s : String) : String := ⟨trimChars s.data⟩

/-- Character-list version of `listHasSub`: does the second list start
with the first? -/
def listPre : List Char → List Char → Bool
  | [], _ => true
  | _ :: _, [] => false
  | a :: as, b :: bs => a == b && listPre as bs

/-- Does the second list contain the first as a contiguous sublist? -/
def listHasSub (nd : List Char) : List Char → Bool
  | [] => listPre nd []
  | b :: bs => listPre nd (b :: bs) || listHasSub nd bs

/-- Python `needle in hay` on strings. -/
def strHasSub (hay needle : String) : Bool :=
  listHasSub needle.toList hay.toList

/-- A DataFrame: an ordered list of named columns.  Column labels are
kept as strings (`str(label)` of the raw header cell); pandas converts
labels with `astype(str)` before any of the name comparisons modelled
here, so this loses nothing. -/
structure DataFrame where
  cols : List (String × List Cell)
  deriving DecidableEq, Repr

namespace DataFrame

/-- Row count: length of the first column (all columns of a frame built
by the pipeline have equal length). -/
def nrows (d : DataFrame) : Nat :=
  match d.cols with
  | [] => 0
  | c :: _ => c.2.length

/-- pandas `df.empty`: no columns or no rows. -/
def empty (d : DataFrame) : Bool :=
  d.cols.isEmpty || d.nrows == 0

/-- `name in df.columns`. -/
def hasCol (d : DataFrame) (n : String) : Bool :=
  d.cols.any (fun p => p.1 == n)

/-- `df[name]`: the first column with the given label. -/
def getColumn (d : DataFrame) (n : String) : Option (List Cell) :=
  (d.cols.find? (fun p => p.1 == n)).map (fun p => p.2)

/-- `df[name] = f(df[name])`: transform every column with the label. -/
def setColumn (d : DataFrame) (n : String) (f : List Cell → List Cell) : DataFrame :=
  ⟨d.cols.map (fun p => if p.1 == n then (p.1, f p.2) else p)⟩

end DataFrame

/-- `pd.DataFrame()`, the empty frame returned on every failure path. -/
def emptyFrame : DataFrame := ⟨[]⟩

/-- Keep a row (`b = true`) or drop it, columnwise: `df[mask]`. -/
def applyMask : List Bool → List Cell → List Cell
  | b :: bs, c :: cs => if b then c :: applyMask bs cs else applyMask bs cs
  | _, _ => []

/-- `df[mask]` applied to a whole frame. -/
def filterRows (d : DataFrame) (mask : List Bool) : DataFrame :=
  ⟨d.cols.map (fun p => (p.1, applyMask mask p.2))⟩

/-- The keyword map of `normalize_and_deduplicate` (lines 119-126 of
`app.py`): case-insensitive substring tests, first match wins, unmatched
names pass through. -/
def canonicalName (c : String) : String :=
  let lc := strLower c
  if strHasSub lc "owner" || strHasSub lc "respons" || strHasSub lc "dono" then "Owner"
  else if strHasSub lc "task" || strHasSub lc "tarefa" then "Task"
  else if strHasSub lc "status" || strHasSub lc "estado" then "Status"
  else if strHasSub lc "prio" then "Prioridade"
  else if strHasSub lc "link" || strHasSub lc "drive" || strHasSub lc "pasta" then "Link"
  else if strHasSub lc "contact" || strHasSub lc "contacto" then "Point of Contact"
  else c

/-- `df.loc[:, ~df.columns.duplicated()]`: keep only the first column
with each label, preserving order.  `seen` collects labels already kept. -/
def dedupGo (seen : List String) : List (String × List Cell) → List (String × List Cell)
  | [] => []
  | p :: rest =>
    if seen.contains p.1 then dedupGo seen rest
    else p :: dedupGo (p.1 :: seen) rest

/-- Duplicate-column collapse, first occurrence wins. -/
def dedupCols (l : List (String × List Cell)) : List (String × List Cell) :=
  dedupGo [] l

/-- `normalize_and_deduplicate` (lines 107-133): on a non-empty frame,
strip the column labels, rename them through the keyword map, and drop
duplicated labels keeping the first.  An empty frame is returned as-is. -/
def normalize_and_deduplicate (d : DataFrame) : DataFrame :=
  if d.empty then d
  else ⟨dedupCols (d.cols.map (fun p => (canonicalName (strTrim p.1), p.2)))⟩

/-- The canonical schema (line 141). -/
def required : List String :=
  ["Owner", "Task", "Status", "Prioridade", "Link", "Point of Contact"]

/-- One step of the column injection: `if req not in df.columns:
df[req] = np.nan` (lines 142-143). -/
def injectStep (acc : DataFrame) (r : String) : DataFrame :=
  if acc.hasCol r then acc
  else ⟨acc.cols ++ [(r, List.replicate acc.nrows Cell.nan)]⟩

/-- Step 2 of `sanitize_dataframe` (lines 141-143): `df[req] = np.nan`
for each missing canonical column, appended in schema order. -/
def injectRequired (d : DataFrame) : DataFrame :=
  required.foldl injectStep d

/-- `replace(r'^\s*$', np.nan, regex=True)`: a whitespace-only string
cell becomes `NaN`; other cells are untouched. -/
def blankToNan : Cell → Cell
  | .str s => if strTrim s = "" then Cell.nan else .str s
  | c => c

/-- `Series.ffill`, carrying the last non-missing value seen. -/
def ffillGo (last : Option Cell) : List Cell → List Cell
  | [] => []
  | c :: cs =>
    if c.isNa then
      match last with
      | some v => v :: ffillGo last cs
      | none => Cell.nan :: ffillGo none cs
    else c :: ffillGo (some c) cs

/-- `fillna("Geral")` on one cell. -/
def fillGeral (c : Cell) : Cell :=
  if c.isNa then Cell.str "Geral" else c

/-- The Owner repair of lines 148-150: blank-to-NaN, forward fill, then
default the leading run to `"Geral"`. -/
def ownerClean (v : List Cell) : List Cell :=
  (ffillGo none (v.map blankToNan)).map fillGeral

/-- The spec's own description of the Owner repair, stated directly for
comparison with `ownerClean`: treat whitespace-only or absent cells as
absent, give each absent cell the nearest preceding non-absent value
(carried in `prev`), and default a leading run with no preceding value
to the `"Geral"` sentinel. -/
def fillDownSpec (prev : Option Cell) : List Cell → List Cell
  | [] => []
  | c :: cs =>
    if (blankToNan c).isNa then
      prev.getD (Cell.str "Geral") :: fillDownSpec prev cs
    else blankToNan c :: fillDownSpec (some (blankToNan c)) cs

/-- Step 3 of `sanitize_dataframe` (lines 146-150), guarded as in the
source by `'Owner' in df.columns`. -/
def ownerStage (d : DataFrame) : DataFrame :=
  if d.hasCol "Owner" then d.setColumn "Owner" ownerClean else d

/-- `astype(str).replace('nan','')` on one Task cell. -/
def taskStr (c : Cell) : Cell :=
  let s := cellToStr c
  if s = "nan" then Cell.str "" else Cell.str s

/-- The row-keep predicate of line 156: stripped Task text longer than
one character. -/
def taskKeep (c : Cell) : Bool :=
  decide (1 < (strTrim (cellToStr c)).length)

/-- `df['Task'] = df['Task'].astype(str).replace('nan','')`. -/
def taskCoerce (d : DataFrame) : DataFrame :=
  d.setColumn "Task" (fun v => v.map taskStr)

/-- The boolean mask `df['Task'].str.strip().str.len() > 1`. -/
def taskMask (d : DataFrame) : List Bool :=
  ((d.getColumn "Task").getD []).map taskKeep

/-- `df = df[df['Task'].str.strip().str.len() > 1]`. -/
def taskFilter (d : DataFrame) : DataFrame :=
  filterRows d (taskMask d)

/-- Step 4 of `sanitize_dataframe` (lines 153-156), guarded as in the
source by `'Task' in df.columns`. -/
def taskStage (d : DataFrame) : DataFrame :=
  if d.hasCol "Task" then taskFilter (taskCoerce d) else d

/-- `fillna(dflt).astype(str)` on one cell. -/
def fillThenStr (dflt : String) (c : Cell) : Cell :=
  if c.isNa then Cell.str dflt else Cell.str (cellToStr c)

/-- Step 5 of `sanitize_dataframe` (lines 160-162): defaults for
Status, Prioridade and Link, each coerced to string. -/
def statusDefaults (d : DataFrame) : DataFrame :=
  ((d.setColumn "Status" (fun v => v.map (fillThenStr "Pendente"))).setColumn
      "Prioridade" (fun v => v.map (fillThenStr "Normal"))).setColumn
    "Link" (fun v => v.map (fillThenStr ""))

/-- `sanitize_dataframe` (lines 135-164): normalize and deduplicate,
inject the missing canonical columns, repair Owner, clean and filter
Task, then apply the string defaults. -/
def sanitize_dataframe (d : DataFrame) : DataFrame :=
  statusDefaults (taskStage (ownerStage (injectRequired (normalize_and_deduplicate d))))

/-- The raw grid returned by `fetch_data_nuclear`: the rows read by
`pd.read_csv(..., header=None)` plus the frame's column count.  pandas
pads short rows with NaN, modelled by defaulting out-of-range access to
`Cell.nan`. -/
structure Grid where
  rows : List (List Cell)
  ncols : Nat
  deriving DecidableEq, Repr

/-- `raw.iloc[i]`: row `i` padded to the grid's column count. -/
def Grid.row (g : Grid) (i : Nat) : List Cell :=
  let r := g.rows.getD i []
  (r.take g.ncols) ++ List.replicate (g.ncols - r.length) Cell.nan

/-- One cell of the header-scan test (line 177): the stringified,
lower-cased cell contains `owner`, `respons` or `tarefa`. -/
def cellMatchG (c : Cell) : Bool :=
  let s := strLower (cellToStr c)
  strHasSub s "owner" || strHasSub s "respons" || strHasSub s "tarefa"

/-- One cell of the weekly header test (lines 202 and 215): contains
`owner` or `respons`. -/
def cellMatchW (c : Cell) : Bool :=
  let s := strLower (cellToStr c)
  strHasSub s "owner" || strHasSub s "respons"

/-- `any(... for s in row_str)` over one padded row. -/
def rowMatchG (row : List Cell) : Bool := row.any cellMatchG

/-- Weekly variant of `rowMatchG`. -/
def rowMatchW (row : List Cell) : Bool := row.any cellMatchW

/-- The `for i in range(...)` scan: first index `i` (counting from the
given start) below `start + fuel` where `p` holds. -/
def scanIdx (p : Nat → Bool) : Nat → Nat → Option Nat
  | _, 0 => none
  | i, fuel + 1 => if p i then some i else scanIdx p (i + 1) fuel

/-- The vertical header scanner of `load_global_data` (lines 174-179):
first row among the first `min 20 len` rows with an owner/respons/tarefa
cell. -/
def findHeaderG (g : Grid) : Option Nat :=
  scanIdx (fun i => rowMatchG (g.row i)) 0 (min 20 g.rows.length)

/-- The vertical header scanner of `load_weekly_data` (lines 199-204):
markers are only `owner`/`respons` here. -/
def findHeaderW (g : Grid) : Option Nat :=
  scanIdx (fun i => rowMatchW (g.row i)) 0 (min 20 g.rows.length)

/-- Build the DataFrame `df.columns = headers; df = raw.iloc[h+1:]` of
`load_global_data` (lines 183-185): one column per grid column, labels
stringified from the header row. -/
def dfOfGrid (header : List Cell) (body : List (List Cell)) (ncols : Nat) : DataFrame :=
  ⟨(List.range ncols).map (fun j =>
    (cellToStr (header.getD j Cell.nan),
     body.map (fun r => r.getD j Cell.nan)))⟩

/-- `load_global_data` (lines 167-188) from the fetched grid onward:
`none` stands for a failed fetch.  Fewer than two rows, or no header row
found, yields the empty frame. -/
def load_global_data : Option Grid → DataFrame
  | none => emptyFrame
  | some g =>
    if g.rows.length < 2 then emptyFrame
    else
      match findHeaderG g with
      | none => emptyFrame
      | some hi => sanitize_dataframe (dfOfGrid (g.row hi) (g.rows.drop (hi + 1)) g.ncols)

/-- The label row of `load_weekly_data` (line 210): the row above the
header, or all-NaN when the header is row 0. -/
def weekDates (g : Grid) (hi : Nat) : List Cell :=
  if hi > 0 then g.row (hi - 1) else List.replicate g.ncols Cell.nan

/-- The horizontal block starts (line 215): header-row offsets whose
cell matches `owner`/`respons`. -/
def weekStarts (g : Grid) (hi : Nat) : List Nat :=
  (List.range g.ncols).filter (fun j => cellMatchW ((g.row hi).getD j Cell.nan))

/-- The block label of lines 218-223: the trimmed cell above the block
start when it is non-missing, non-blank and not the text `nan`
(case-insensitively); otherwise the fallback `"Sprint Indefinida"`. -/
def weekBase (g : Grid) (hi s : Nat) : String :=
  let rd := weekDates g hi
  if s < rd.length then
    let v := rd.getD s Cell.nan
    if !v.isNa && strTrim (cellToStr v) != "" && strLower (cellToStr v) != "nan" then
      strTrim (cellToStr v)
    else "Sprint Indefinida"
  else "Sprint Indefinida"

/-- The 6-column block slice of lines 229-232: columns `[s, s+6)`, rows
strictly below the header, labels stringified from the header row. -/
def blockDF (g : Grid) (hi s : Nat) : DataFrame :=
  ⟨(List.range 6).map (fun j =>
    (cellToStr ((g.row hi).getD (s + j) Cell.nan),
     (g.rows.drop (hi + 1)).map (fun r => r.getD (s + j) Cell.nan)))⟩

/-- Python `dict` assignment `m[k] = v`: overwrite in place when the key
exists, else append. -/
def putKey (m : List (String × DataFrame)) (k : String) (v : DataFrame) :
    List (String × DataFrame) :=
  if m.any (fun p => p.1 == k) then
    m.map (fun p => if p.1 == k then (k, v) else p)
  else m ++ [(k, v)]

/-- The key chosen for one block (lines 218-226): the block label, with
the start offset appended when that label is already a key. -/
def weekName (g : Grid) (hi : Nat) (m : List (String × DataFrame)) (s : Nat) : String :=
  if m.any (fun p => p.1 == weekBase g hi s) then
    weekBase g hi s ++ " (" ++ toString s ++ ")"
  else weekBase g hi s

/-- One iteration of the per-block loop (lines 228-236): when the six
columns fit the grid, slice, sanitize, and store the block under its
key unless the sanitized result is empty. -/
def weekStep (g : Grid) (hi : Nat) (m : List (String × DataFrame)) (s : Nat) :
    List (String × DataFrame) :=
  if s + 6 ≤ g.ncols then
    if (sanitize_dataframe (blockDF g hi s)).empty then m
    else putKey m (weekName g hi m s) (sanitize_dataframe (blockDF g hi s))
  else m

/-- The per-block loop of `load_weekly_data` (lines 217-236). -/
def weekFold (g : Grid) (hi : Nat) :
    List Nat → List (String × DataFrame) → List (String × DataFrame)
  | [], m => m
  | s :: rest, m => weekFold g hi rest (weekStep g hi m s)

/-- `load_weekly_data` (lines 191-240) from the fetched grid onward:
a mapping (insertion-ordered, unique keys) from block label to sanitized
block. -/
def load_weekly_data : Option Grid → List (String × DataFrame)
  | none => []
  | some g =>
    if g.rows.length < 2 then []
    else
      match findHeaderW g with
      | none => []
      | some hi => weekFold g hi (weekStarts g hi) []

/-- A UTF-8 continuation byte. -/
def isCont (b : Nat) : Bool := 128 ≤ b && b < 192

/-- Strict UTF-8 decoding of a byte list into code points, as Python
`bytes.decode('utf-8')`: rejects stray or missing continuation bytes,
overlong forms, surrogates and points above `0x10FFFF`. -/
def utf8Decode : List Nat → Option (List Nat)
  | [] => some []
  | b :: rest =>
    if b < 128 then (utf8Decode rest).map (fun t => b :: t)
    else if b < 192 then none
    else if b < 224 then
      match rest with
      | b1 :: r =>
        if isCont b1 then
          let cp := (b - 192) * 64 + (b1 - 128)
          if cp < 128 then none else (utf8Decode r).map (fun t => cp :: t)
        else none
      | [] => none
    else if b < 240 then
      match rest with
      | b1 :: b2 :: r =>
        if isCont b1 && isCont b2 then
          let cp := (b - 224) * 4096 + (b1 - 128) * 64 + (b2 - 128)
          if cp < 2048 || (55296 ≤ cp && cp < 57344) then none
          else (utf8Decode r).map (fun t => cp :: t)
        else none
      | _ => none
    else if b < 248 then
      match rest with
      | b1 :: b2 :: b3 :: r =>
        if isCont b1 && isCont b2 && isCont b3 then
          let cp := (b - 240) * 262144 + (b1 - 128) * 4096 + (b2 - 128) * 64 + (b3 - 128)
          if cp < 65536 || 1114111 < cp then none
          else (utf8Decode r).map (fun t => cp :: t)
        else none
      | _ => none
    else none

/-- Python `bytes.decode('latin-1')` (also the codec behind the alias
`iso-8859-1`): every byte is its own code point, never fails. -/
def latin1Decode (bs : List Nat) : Option (List Nat) := some bs

/-- Python `bytes.decode('cp1252')`: bytes `0x81, 0x8D, 0x8F, 0x90,
0x9D` are undefined and raise; the other `0x80-0x9F` bytes map through
the Windows-1252 table. -/
def cp1252Byte (b : Nat) : Option Nat :=
  if b == 129 || b == 141 || b == 143 || b == 144 || b == 157 then none
  else if b < 128 || 160 ≤ b then some b
  else some (match b with
    | 128 => 8364 | 130 => 8218 | 131 => 402 | 132 => 8222 | 133 => 8230
    | 134 => 8224 | 135 => 8225 | 136 => 710 | 137 => 8240 | 138 => 352
    | 139 => 8249 | 140 => 338 | 142 => 381 | 145 => 8216 | 146 => 8217
    | 147 => 8220 | 148 => 8221 | 149 => 8226 | 150 => 8211 | 151 => 8212
    | 152 => 732 | 153 => 8482 | 154 => 353 | 155 => 8250 | 156 => 339
    | 158 => 382 | 159 => 376 | _ => b)

/-- Whole-stream cp1252 decoding. -/
def cp1252Decode (bs : List Nat) : Option (List Nat) := bs.mapM cp1252Byte

/-- The encoding cascade of line 88:
`['utf-8', 'latin-1', 'cp1252', 'iso-8859-1']` (the last is an alias of
the Latin-1 codec in Python). -/
def decodeAttempts : List (List Nat → Option (List Nat)) :=
  [utf8Decode, latin1Decode, cp1252Decode, latin1Decode]

/-- Code points to a Lean string. -/
def cpsToString (cps : List Nat) : String := ⟨cps.map Char.ofNat⟩

/-- Split a character list on a separator character. -/
def splitOnChar (sep : Char) : List Char → List (List Char)
  | [] => [[]]
  | c :: rest =>
    let r := splitOnChar sep rest
    if c == sep then [] :: r
    else
      match r with
      | [] => [[c]]
      | h :: t => (c :: h) :: t

/-- Minimal model of the delimiter sniff of
`pd.read_csv(..., sep=None, engine='python')`: semicolon when the first
line has semicolons and no commas, else comma. -/
def sniffSep (line : List Char) : Char :=
  if line.contains ';' && !line.contains ',' then ';' else ','

/-- Minimal model of `pd.read_csv(StringIO(text), sep=None,
engine='python', header=None, on_bad_lines='skip')` at line 92 of
`app.py`: non-blank newline-separated rows, cells split on the sniffed
delimiter, every cell kept as text.  The development relies on it only
for grid (non-)emptiness. -/
def parseGrid (s : String) : Grid :=
  let lines := (splitOnChar '\n' s.data).filter (fun l => !l.isEmpty)
  let sep := match lines with
    | [] => ','
    | l :: _ => sniffSep l
  let rows := lines.map (fun l => (splitOnChar sep l).map (fun cs => Cell.str ⟨cs⟩))
  ⟨rows, rows.foldl (fun a r => max a r.length) 0⟩

/-- The `for enc in encodings` loop of lines 90-94: first decoder that
succeeds wins and its decoded text is parsed into a grid; decoding
failure falls through to the next candidate. -/
def cascadeGrid : List (List Nat → Option (List Nat)) → List Nat → Option Grid
  | [], _ => none
  | d :: ds, bs =>
    match d bs with
    | some cps => some (parseGrid (cpsToString cps))
    | none => cascadeGrid ds bs

/-- The decoding stage of `fetch_data_nuclear` (lines 84-96), from raw
response bytes to a grid. -/
def decodeCascade (bs : List Nat) : Option Grid :=
  cascadeGrid decodeAttempts bs

/-- A concrete one-block weekly grid used by witnesses: a label row, a
6-column header row and one data row. -/
def exGridW : Grid :=
  ⟨[[Cell.str "wk", Cell.nan, Cell.nan, Cell.nan, Cell.nan, Cell.nan],
    [Cell.str "Owner", Cell.str "Task", Cell.str "Status", Cell.str "Prio",
      Cell.str "Link", Cell.str "Contact"],
    [Cell.str "Ana", Cell.str "do x", Cell.str "Feito", Cell.str "Alta",
      Cell.str "", Cell.str ""]], 6⟩

/-- A concrete two-block weekly grid whose two blocks carry the same
label `"W"` one row above the header, forcing the collision suffix on
the second block's key. -/
def exGridC6 : Grid :=
  ⟨[[Cell.str "W", Cell.nan, Cell.nan, Cell.nan, Cell.nan, Cell.nan,
     Cell.str "W", Cell.nan, Cell.nan, Cell.nan, Cell.nan, Cell.nan],
    [Cell.str "Owner", Cell.str "Task", Cell.str "Status", Cell.str "Prio",
     Cell.str "Link", Cell.str "Contact",
     Cell.str "Owner", Cell.str "Task", Cell.str "Status", Cell.str "Prio",
     Cell.str "Link", Cell.str "Contact"],
    [Cell.str "Ana", Cell.str "do x", Cell.str "Feito", Cell.str "Alta",
     Cell.str "", Cell.str "",
     Cell.str "Rui", Cell.str "do y", Cell.str "Feito", Cell.str "Alta",
     Cell.str "", Cell.str ""]], 12⟩

/-! ### The bounded vertical header scan -/

theorem scanIdx_eq_some (p : Nat → Bool) :
    ∀ (fuel i r : Nat),
      scanIdx p i fuel = some r ↔
        (i ≤ r ∧ r < i + fuel ∧ p r = true ∧ ∀ j, i ≤ j → j < r → p j = false) := by
  intro fuel
  induction fuel with
  | zero =>
    intro i r
    simp only [scanIdx]
    constructor
    · intro h; cases h
    · rintro ⟨h1, h2, -⟩; omega
  | succ n ih =>
    intro i r
    simp only [scanIdx]
    by_cases h : p i = true
    · simp only [h, if_true]
      constructor
      · intro h2
        have hir : i = r := Option.some.inj h2
        subst hir
        exact ⟨Nat.le_refl i, by omega, h, fun j hj1 hj2 => by omega⟩
      · rintro ⟨h1, h2, h3, h4⟩
        have hri : r = i := by
          by_contra hne
          have hlt : i < r := Nat.lt_of_le_of_ne h1 (fun e => hne e.symm)
          have := h4 i (Nat.le_refl i) hlt
          rw [h] at this
          cases this
        subst hri; rfl
    · have hb : p i = false := by
        cases hpi : p i
        · rfl
        · exact absurd hpi h
      simp only [hb, Bool.false_eq_true, if_false]
      rw [ih (i + 1) r]
      constructor
      · rintro ⟨h1, h2, h3, h4⟩
        refine ⟨by omega, by omega, h3, ?_⟩
        intro j hj1 hj2
        rcases Nat.eq_or_lt_of_le hj1 with he | hlt
        · rw [← he]; exact hb
        · exact h4 j (by omega) hj2
      · rintro ⟨h1, h2, h3, h4⟩
        have hne : i ≠ r := by
          intro e
          rw [← e] at h3
          rw [hb] at h3
          cases h3
        exact ⟨by omega, by omega, h3, fun j hj1 hj2 => h4 j (by omega) hj2⟩

theorem scanIdx_eq_none (p : Nat → Bool) :
    ∀ (fuel i : Nat),
      scanIdx p i fuel = none ↔ ∀ j, i ≤ j → j < i + fuel → p j = false := by
  intro fuel
  induction fuel with
  | zero =>
    intro i
    simp only [scanIdx]
    constructor
    · intro _ j h1 h2; omega
    · intro _; trivial
  | succ n ih =>
    intro i
    simp only [scanIdx]
    by_cases h : p i = true
    · simp only [h, if_true]
      constructor
      · intro hc; cases hc
      · intro hall
        have := hall i (Nat.le_refl i) (by omega)
        rw [h] at this; cases this
    · have hb : p i = false := by
        cases hpi : p i
        · rfl
        · exact absurd hpi h
      simp only [hb, Bool.false_eq_true, if_false]
      rw [ih (i + 1)]
      constructor
      · intro hall j hj1 hj2
        rcases Nat.eq_or_lt_of_le hj1 with he | hlt
        · rw [← he]; exact hb
        · exact hall j (by omega) (by omega)
      · intro hall j hj1 hj2
        exact hall j (by omega) (by omega)

theorem scanIdx_congr (p q : Nat → Bool) :
    ∀ (fuel i : Nat), (∀ j, i ≤ j → j < i + fuel → p j = q j) →
      scanIdx p i fuel = scanIdx q i fuel := by
  intro fuel
  induction fuel with
  | zero => intro i _; rfl
  | succ n ih =>
    intro i hall
    simp only [scanIdx]
    rw [hall i (Nat.le_refl i) (by omega), ih (i + 1) (fun j h1 h2 => hall j (by omega) (by omega))]

/-- C2: in the single-table path, a row is selected as the header iff it
lies in the 20-row scan window and some cell of it contains an
owner/responsible marker (`owner`, `respons`) or the task marker
(`tarefa`) case-insensitively, and no earlier row does: the first
matching row wins and the scan stops there. -/
theorem claim_C2 (g : Grid) (i : Nat) :
    findHeaderG g = some i ↔
      (i < min 20 g.rows.length ∧ rowMatchG (g.row i) = true ∧
        ∀ j, j < i → rowMatchG (g.row j) = false) := by
  unfold findHeaderG
  rw [scanIdx_eq_some]
  constructor
  · rintro ⟨-, h2, h3, h4⟩
    exact ⟨by omega, h3, fun j hj => h4 j (Nat.zero_le j) hj⟩
  · rintro ⟨h1, h2, h3⟩
    exact ⟨Nat.zero_le i, by omega, h2, fun j _ hj => h3 j hj⟩

/-- Witness for C2 at a concrete grid: the second row is the header. -/
theorem claim_C2_witness :
    findHeaderG ⟨[[Cell.str "junk"], [Cell.str "Owner"], [Cell.str "Owner"]], 1⟩ = some 1 ↔
      (1 < min 20 (3 : Nat) ∧
        rowMatchG ((⟨[[Cell.str "junk"], [Cell.str "Owner"], [Cell.str "Owner"]], 1⟩ : Grid).row 1) = true ∧
        ∀ j, j < 1 →
          rowMatchG ((⟨[[Cell.str "junk"], [Cell.str "Owner"], [Cell.str "Owner"]], 1⟩ : Grid).row j) = false) :=
  claim_C2 ⟨[[Cell.str "junk"], [Cell.str "Owner"], [Cell.str "Owner"]], 1⟩ 1

/-- C8: a grid with no owner/task-like marker in the first 20 rows makes
`load_global_data` return the empty frame (a defined value, no error
path exists in the model), and the header scan is a function of the
first 20 rows only (plus the column count), so it never examines rows
beyond them. -/
theorem claim_C8 :
    (∀ g : Grid,
        (∀ i, i < min 20 g.rows.length → rowMatchG (g.row i) = false) →
          load_global_data (some g) = emptyFrame) ∧
    (∀ g g' : Grid, g.rows.take 20 = g'.rows.take 20 → g.ncols = g'.ncols →
        findHeaderG g = findHeaderG g') := by
  constructor
  · intro g hnone
    have hfind : findHeaderG g = none := by
      unfold findHeaderG
      rw [scanIdx_eq_none]
      intro j _ hj
      exact hnone j (by omega)
    simp only [load_global_data]
    by_cases hlen : g.rows.length < 2
    · rw [if_pos hlen]
    · rw [if_neg hlen, hfind]
  · intro g g' htake hncols
    have hmin : min 20 g.rows.length = min 20 g'.rows.length := by
      have := congrArg List.length htake
      rw [List.length_take, List.length_take] at this
      simpa using this
    have hrow : ∀ i, i < 20 → g.row i = g'.row i := by
      intro i hi
      have hget : g.rows[i]? = g'.rows[i]? := by
        have h1 : (g.rows.take 20)[i]? = g.rows[i]? := by
          rw [List.getElem?_take, if_pos hi]
        have h2 : (g'.rows.take 20)[i]? = g'.rows[i]? := by
          rw [List.getElem?_take, if_pos hi]
        rw [← h1, ← h2, htake]
      unfold Grid.row
      rw [hncols]
      have : g.rows.getD i [] = g'.rows.getD i [] := by
        simp only [List.getD, List.get?_eq_getElem?, hget]
      rw [this]
    unfold findHeaderG
    rw [← hmin]
    exact scanIdx_congr _ _ (min 20 g.rows.length) 0
      (fun j _ hj => by rw [hrow j (by omega)])

/-- Witness for C8: a concrete markerless grid yields the empty frame,
and the locality part applied to two grids agreeing on their first 20
rows. -/
theorem claim_C8_witness :
    (∀ i, i < min 20 (⟨[[Cell.str "a"], [Cell.str "b"]], 1⟩ : Grid).rows.length →
        rowMatchG ((⟨[[Cell.str "a"], [Cell.str "b"]], 1⟩ : Grid).row i) = false) ∧
    load_global_data (some ⟨[[Cell.str "a"], [Cell.str "b"]], 1⟩) = emptyFrame ∧
    findHeaderG ⟨[[Cell.str "a"], [Cell.str "b"]], 1⟩ =
      findHeaderG ⟨[[Cell.str "a"], [Cell.str "b"]], 1⟩ := by
  refine ⟨by decide, ?_, ?_⟩
  · exact claim_C8.1 ⟨[[Cell.str "a"], [Cell.str "b"]], 1⟩ (by decide)
  · exact claim_C8.2 ⟨[[Cell.str "a"], [Cell.str "b"]], 1⟩ ⟨[[Cell.str "a"], [Cell.str "b"]], 1⟩
      (by decide) (by decide)

/-- C10: a grid with fewer than two rows makes both entry points return
their empty result, whatever the rows contain. -/
theorem claim_C10 (g : Grid) (h : g.rows.length < 2) :
    load_global_data (some g) = emptyFrame ∧ load_weekly_data (some g) = [] := by
  constructor
  · simp only [load_global_data]
    rw [if_pos h]
  · simp only [load_weekly_data]
    rw [if_pos h]

/-! ### Column bookkeeping through the sanitize stages -/

theorem map_fst_setColumn (n : String) (f : List Cell → List Cell) :
    ∀ l : List (String × List Cell),
      (l.map (fun p => if p.1 == n then (p.1, f p.2) else p)).map Prod.fst
        = l.map Prod.fst := by
  intro l
  induction l with
  | nil => rfl
  | cons p t ih =>
    simp only [List.map_cons]
    exact congrArg₂ List.cons (by split <;> rfl) ih

theorem names_setColumn (d : DataFrame) (n : String) (f : List Cell → List Cell) :
    (d.setColumn n f).cols.map Prod.fst = d.cols.map Prod.fst :=
  map_fst_setColumn n f d.cols

theorem names_filterRows (d : DataFrame) (mask : List Bool) :
    (filterRows d mask).cols.map Prod.fst = d.cols.map Prod.fst := by
  simp only [filterRows, List.map_map]
  rfl

theorem hasCol_eq_of_names (d d' : DataFrame)
    (h : d.cols.map Prod.fst = d'.cols.map Prod.fst) (n : String) :
    d.hasCol n = d'.hasCol n := by
  have h1 : ∀ l : List (String × List Cell),
      l.any (fun p => p.1 == n) = (l.map Prod.fst).any (fun s => s == n) := by
    intro l
    induction l with
    | nil => rfl
    | cons p t ih => simp [ih]
  unfold DataFrame.hasCol
  rw [h1, h1, h]

theorem getColumn_isSome_iff (d : DataFrame) (n : String) :
    (d.getColumn n).isSome = true ↔ d.hasCol n = true := by
  unfold DataFrame.getColumn DataFrame.hasCol
  rw [Option.isSome_map']
  rw [List.find?_isSome, List.any_eq_true]

theorem getColumn_setColumn_same (d : DataFrame) (n : String) (f : List Cell → List Cell) :
    (d.setColumn n f).getColumn n = (d.getColumn n).map f := by
  obtain ⟨l⟩ := d
  show ((l.map (fun p => if p.1 == n then (p.1, f p.2) else p)).find?
      (fun p => p.1 == n)).map (fun p => p.2)
    = ((l.find? (fun p => p.1 == n)).map (fun p => p.2)).map f
  induction l with
  | nil => rfl
  | cons p t ih =>
    simp only [List.map_cons]
    by_cases h : (p.1 == n) = true
    · rw [if_pos h]
      rw [List.find?_cons_of_pos (p := fun q : String × List Cell => q.1 == n) (a := (p.1, f p.2)) _ h]
      rw [List.find?_cons_of_pos (p := fun q : String × List Cell => q.1 == n) _ h]
      rfl
    · rw [if_neg h]
      rw [List.find?_cons_of_neg (p := fun q : String × List Cell => q.1 == n) _ h]
      rw [List.find?_cons_of_neg (p := fun q : String × List Cell => q.1 == n) _ h]
      exact ih

theorem getColumn_setColumn_ne (d : DataFrame) (n m : String) (f : List Cell → List Cell)
    (hnm : n ≠ m) :
    (d.setColumn m f).getColumn n = d.getColumn n := by
  obtain ⟨l⟩ := d
  show ((l.map (fun p => if p.1 == m then (p.1, f p.2) else p)).find?
      (fun p => p.1 == n)).map (fun p => p.2)
    = (l.find? (fun p => p.1 == n)).map (fun p => p.2)
  induction l with
  | nil => rfl
  | cons p t ih =>
    simp only [List.map_cons]
    by_cases hm : (p.1 == m) = true
    · have hpn : ¬(p.1 == n) = true := by
        intro he
        exact hnm ((eq_of_beq he).symm.trans (eq_of_beq hm))
      rw [if_pos hm]
      rw [List.find?_cons_of_neg (p := fun q : String × List Cell => q.1 == n) (a := (p.1, f p.2)) _ hpn]
      rw [List.find?_cons_of_neg (p := fun q : String × List Cell => q.1 == n) _ hpn]
      exact ih
    · rw [if_neg hm]
      by_cases hn : (p.1 == n) = true
      · rw [List.find?_cons_of_pos (p := fun q : String × List Cell => q.1 == n) _ hn]
        rw [List.find?_cons_of_pos (p := fun q : String × List Cell => q.1 == n) _ hn]
      · rw [List.find?_cons_of_neg (p := fun q : String × List Cell => q.1 == n) _ hn]
        rw [List.find?_cons_of_neg (p := fun q : String × List Cell => q.1 == n) _ hn]
        exact ih

theorem getColumn_filterRows (d : DataFrame) (mask : List Bool) (n : String) :
    (filterRows d mask).getColumn n = (d.getColumn n).map (applyMask mask) := by
  obtain ⟨l⟩ := d
  show ((l.map (fun p => (p.1, applyMask mask p.2))).find?
      (fun p => p.1 == n)).map (fun p => p.2)
    = ((l.find? (fun p => p.1 == n)).map (fun p => p.2)).map (applyMask mask)
  induction l with
  | nil => rfl
  | cons p t ih =>
    simp only [List.map_cons]
    by_cases h : (p.1 == n) = true
    · rw [List.find?_cons_of_pos (p := fun q : String × List Cell => q.1 == n) (a := (p.1, applyMask mask p.2)) _ h]
      rw [List.find?_cons_of_pos (p := fun q : String × List Cell => q.1 == n) _ h]
      rfl
    · rw [List.find?_cons_of_neg (p := fun q : String × List Cell => q.1 == n) (a := (p.1, applyMask mask p.2)) _ h]
      rw [List.find?_cons_of_neg (p := fun q : String × List Cell => q.1 == n) _ h]
      exact ih

theorem applyMask_map_self (p : Cell → Bool) :
    ∀ l : List Cell, applyMask (l.map p) l = l.filter p := by
  intro l
  induction l with
  | nil => rfl
  | cons c t ih =>
    cases h : p c <;> simp [applyMask, List.filter_cons, h, ih]

theorem mem_applyMask :
    ∀ (mask : List Bool) (l : List Cell) (c : Cell), c ∈ applyMask mask l → c ∈ l := by
  intro mask
  induction mask with
  | nil => intro l c h; cases l <;> simp [applyMask] at h
  | cons b bs ih =>
    intro l c h
    cases l with
    | nil => simp [applyMask] at h
    | cons x xs =>
      simp only [applyMask] at h
      cases b with
      | true =>
        simp only [if_true] at h
        rcases List.mem_cons.mp h with rfl | ht
        · exact List.mem_cons_self c xs
        · exact List.mem_cons_of_mem x (ih xs c ht)
      | false =>
        simp only [Bool.false_eq_true, if_false] at h
        exact List.mem_cons_of_mem x (ih xs c h)

theorem hasCol_injectStep_mono (d : DataFrame) (r n : String) (h : d.hasCol n = true) :
    (injectStep d r).hasCol n = true := by
  unfold injectStep
  split
  · exact h
  · simp only [DataFrame.hasCol] at h ⊢
    simp [List.any_append, h]

theorem hasCol_injectStep_self (d : DataFrame) (r : String) :
    (injectStep d r).hasCol r = true := by
  unfold injectStep
  split
  · assumption
  · simp [DataFrame.hasCol, List.any_append]

theorem hasCol_foldl_mono (l : List String) :
    ∀ (d : DataFrame) (n : String), d.hasCol n = true →
      (l.foldl injectStep d).hasCol n = true := by
  induction l with
  | nil => intro d n h; exact h
  | cons a t ih => intro d n h; exact ih _ _ (hasCol_injectStep_mono d a n h)

theorem hasCol_foldl_mem (l : List String) :
    ∀ (d : DataFrame) (n : String), n ∈ l → (l.foldl injectStep d).hasCol n = true := by
  induction l with
  | nil => intro d n h; cases h
  | cons a t ih =>
    intro d n h
    rcases List.mem_cons.mp h with rfl | ht
    · exact hasCol_foldl_mono t (injectStep d n) n (hasCol_injectStep_self d n)
    · exact ih _ _ ht

theorem hasCol_injectRequired (d : DataFrame) (n : String) (h : n ∈ required) :
    (injectRequired d).hasCol n = true :=
  hasCol_foldl_mem required d n h

theorem names_ownerStage (d : DataFrame) :
    (ownerStage d).cols.map Prod.fst = d.cols.map Prod.fst := by
  unfold ownerStage
  split
  · exact names_setColumn d "Owner" ownerClean
  · rfl

theorem names_taskStage (d : DataFrame) :
    (taskStage d).cols.map Prod.fst = d.cols.map Prod.fst := by
  unfold taskStage
  split
  · unfold taskFilter taskCoerce
    rw [names_filterRows, names_setColumn]
  · rfl

theorem names_statusDefaults (d : DataFrame) :
    (statusDefaults d).cols.map Prod.fst = d.cols.map Prod.fst := by
  unfold statusDefaults
  rw [names_setColumn, names_setColumn, names_setColumn]

theorem names_sanitize (d : DataFrame) :
    (sanitize_dataframe d).cols.map Prod.fst
      = (injectRequired (normalize_and_deduplicate d)).cols.map Prod.fst := by
  unfold sanitize_dataframe
  rw [names_statusDefaults, names_taskStage, names_ownerStage]

theorem hasCol_sanitize_required (d : DataFrame) (n : String) (h : n ∈ required) :
    (sanitize_dataframe d).hasCol n = true := by
  rw [hasCol_eq_of_names _ (injectRequired (normalize_and_deduplicate d)) (names_sanitize d) n]
  exact hasCol_injectRequired _ n h

/-- Witness for C10: a one-row grid whose single row is itself a valid
header row (it contains `Owner`) still yields empty results. -/
theorem claim_C10_witness :
    (⟨[[Cell.str "Owner", Cell.str "Task"]], 2⟩ : Grid).rows.length < 2 ∧
    load_global_data (some ⟨[[Cell.str "Owner", Cell.str "Task"]], 2⟩) = emptyFrame ∧
    load_weekly_data (some ⟨[[Cell.str "Owner", Cell.str "Task"]], 2⟩) = [] := by
  refine ⟨by decide, ?_⟩
  exact claim_C10 ⟨[[Cell.str "Owner", Cell.str "Task"]], 2⟩ (by decide)


/-! ### Owner fill-down (C3) -/

theorem ownerClean_eq_fillDownSpec_aux :
    ∀ (v : List Cell) (o : Option Cell), (∀ c, o = some c → c.isNa = false) →
      (ffillGo o (v.map blankToNan)).map fillGeral = fillDownSpec o v := by
  intro v
  induction v with
  | nil => intro o _; rfl
  | cons c cs ih =>
    intro o ho
    simp only [List.map_cons, ffillGo, fillDownSpec]
    by_cases h : (blankToNan c).isNa = true
    · rw [if_pos h, if_pos h]
      cases o with
      | some a =>
        have ha := ho a rfl
        simp only [List.map_cons]
        rw [show fillGeral a = a from by unfold fillGeral; rw [ha]; rfl]
        rw [ih (some a) ho]
        rfl
      | none =>
        simp only [List.map_cons]
        rw [show fillGeral Cell.nan = Cell.str "Geral" from rfl]
        rw [ih none ho]
        rfl
    · rw [if_neg h, if_neg h]
      simp only [List.map_cons]
      rw [show fillGeral (blankToNan c) = blankToNan c from by
        unfold fillGeral
        rw [show (blankToNan c).isNa = false from by
          cases hb : (blankToNan c).isNa
          · rfl
          · exact absurd hb h]
        rfl]
      rw [ih (some (blankToNan c)) (fun x hx => by
        cases hx
        cases hb : (blankToNan c).isNa
        · rfl
        · exact absurd hb h)]

/-- C3: the Owner repair of `sanitize_dataframe` is exactly the spec's
fill-down: whitespace-only or absent Owner cells are treated as absent,
each absent cell receives the nearest preceding non-absent value, and a
leading absent run receives the `"Geral"` sentinel; on the concrete
column `["Alice", "", "", "Bob", ""]` with five non-blank Tasks the
sanitized Owner column is `["Alice","Alice","Alice","Bob","Bob"]`. -/
theorem claim_C3 :
    (∀ v : List Cell, ownerClean v = fillDownSpec none v) ∧
    (sanitize_dataframe ⟨[("Owner",
        [Cell.str "Alice", Cell.str "", Cell.str "", Cell.str "Bob", Cell.str ""]),
      ("Task",
        [Cell.str "t1", Cell.str "t2", Cell.str "t3", Cell.str "t4", Cell.str "t5"])]⟩).getColumn
        "Owner"
      = some [Cell.str "Alice", Cell.str "Alice", Cell.str "Alice",
          Cell.str "Bob", Cell.str "Bob"] := by
  constructor
  · intro v
    unfold ownerClean
    exact ownerClean_eq_fillDownSpec_aux v none (fun c hc => by cases hc)
  · decide

/-- Witness for C3: the fill-down equation evaluated on the example
column. -/
theorem claim_C3_witness :
    ownerClean [Cell.str "Alice", Cell.str "", Cell.num 3]
      = fillDownSpec none [Cell.str "Alice", Cell.str "", Cell.num 3] :=
  claim_C3.1 [Cell.str "Alice", Cell.str "", Cell.num 3]

/-! ### The Task coercion and row filter (C7) -/

theorem taskStr_isStr (c : Cell) : (taskStr c).isStr = true := by
  show (if cellToStr c = "nan" then Cell.str "" else Cell.str (cellToStr c)).isStr = true
  split <;> rfl

theorem fillThenStr_isStr (dflt : String) (c : Cell) :
    (fillThenStr dflt c).isStr = true := by
  unfold fillThenStr
  split <;> rfl

theorem getColumn_task_sanitize (d : DataFrame) :
    (sanitize_dataframe d).getColumn "Task"
      = ((ownerStage (injectRequired (normalize_and_deduplicate d))).getColumn "Task").map
          (fun l => (l.map taskStr).filter taskKeep) := by
  have hnames : (ownerStage (injectRequired (normalize_and_deduplicate d))).cols.map Prod.fst
      = (injectRequired (normalize_and_deduplicate d)).cols.map Prod.fst :=
    names_ownerStage _
  have hhas : (ownerStage (injectRequired (normalize_and_deduplicate d))).hasCol "Task" = true := by
    rw [hasCol_eq_of_names _ _ hnames]
    exact hasCol_injectRequired _ _ (by decide)
  obtain ⟨l₀, hl₀⟩ := Option.isSome_iff_exists.mp ((getColumn_isSome_iff _ "Task").mpr hhas)
  unfold sanitize_dataframe
  rw [show taskStage (ownerStage (injectRequired (normalize_and_deduplicate d)))
      = taskFilter (taskCoerce (ownerStage (injectRequired (normalize_and_deduplicate d)))) from by
    unfold taskStage
    rw [if_pos hhas]]
  rw [show (statusDefaults (taskFilter (taskCoerce
        (ownerStage (injectRequired (normalize_and_deduplicate d)))))).getColumn "Task"
      = (taskFilter (taskCoerce
          (ownerStage (injectRequired (normalize_and_deduplicate d))))).getColumn "Task" from by
    unfold statusDefaults
    rw [getColumn_setColumn_ne _ _ _ _ (by decide)]
    rw [getColumn_setColumn_ne _ _ _ _ (by decide)]
    rw [getColumn_setColumn_ne _ _ _ _ (by decide)]]
  have hco : (taskCoerce (ownerStage (injectRequired (normalize_and_deduplicate d)))).getColumn
      "Task" = some (l₀.map taskStr) := by
    unfold taskCoerce
    rw [getColumn_setColumn_same, hl₀]
    rfl
  unfold taskFilter
  rw [getColumn_filterRows]
  rw [hco]
  rw [show taskMask (taskCoerce (ownerStage (injectRequired (normalize_and_deduplicate d))))
      = (l₀.map taskStr).map taskKeep from by
    unfold taskMask
    rw [hco]
    rfl]
  rw [hl₀]
  simp only [Option.map_some']
  rw [applyMask_map_self]

/-- C7: sanitization coerces every Task cell to text (absent cells
become empty text) and keeps exactly the rows whose stripped Task text
is longer than one character: the output Task column is the coerced
input Task column filtered by that predicate, every surviving cell
satisfies it, and a row whose Task is just `"-"` is dropped while a
two-character Task survives. -/
theorem claim_C7 :
    (∀ d : DataFrame,
      (sanitize_dataframe d).getColumn "Task"
        = ((ownerStage (injectRequired (normalize_and_deduplicate d))).getColumn "Task").map
            (fun l => (l.map taskStr).filter taskKeep)) ∧
    (∀ (d : DataFrame) (l : List Cell),
      (sanitize_dataframe d).getColumn "Task" = some l → ∀ c ∈ l, taskKeep c = true) ∧
    (sanitize_dataframe ⟨[("Owner", [Cell.str "A", Cell.str "B"]),
        ("Task", [Cell.str "-", Cell.str "ok"])]⟩).getColumn "Task"
      = some [Cell.str "ok"] := by
  refine ⟨fun d => getColumn_task_sanitize d, ?_, by decide⟩
  intro d l hl c hc
  rw [getColumn_task_sanitize d] at hl
  cases hget : (ownerStage (injectRequired (normalize_and_deduplicate d))).getColumn "Task" with
  | none => rw [hget] at hl; cases hl
  | some l₀ =>
    rw [hget] at hl
    simp only [Option.map_some'] at hl
    have : l = (l₀.map taskStr).filter taskKeep := (Option.some.inj hl).symm
    rw [this] at hc
    exact (List.mem_filter.mp hc).2

/-- Witness for C7: the filter equation and the kept-cell property on a
concrete frame. -/
theorem claim_C7_witness :
    (sanitize_dataframe ⟨[("Owner", [Cell.str "A", Cell.str "B"]),
        ("Task", [Cell.str "-", Cell.str "ok"])]⟩).getColumn "Task"
      = some [Cell.str "ok"] ∧
    (∀ c ∈ [Cell.str "ok"], taskKeep c = true) := by
  refine ⟨by decide, ?_⟩
  exact claim_C7.2.1 ⟨[("Owner", [Cell.str "A", Cell.str "B"]),
    ("Task", [Cell.str "-", Cell.str "ok"])]⟩ [Cell.str "ok"] (by decide)

/-! ### The canonical-schema invariant (C1) -/

/-- C1 counterexample: the claim that every cell of all six canonical
columns is string-typed fails.  On a table whose Owner cell is the
number `7` and which lacks a Point of Contact column, sanitization keeps
the numeric Owner cell and leaves the injected Point of Contact cell
missing — neither is string-typed. -/
theorem claim_C1_counterexample :
    (sanitize_dataframe ⟨[("Owner", [Cell.num 7]),
        ("Task", [Cell.str "work"])]⟩).getColumn "Owner" = some [Cell.num 7] ∧
    (sanitize_dataframe ⟨[("Owner", [Cell.num 7]),
        ("Task", [Cell.str "work"])]⟩).getColumn "Point of Contact" = some [Cell.nan] ∧
    Cell.isStr (Cell.num 7) = false ∧ Cell.isStr Cell.nan = false := by
  exact ⟨by decide, by decide, rfl, rfl⟩

/-- C1 as amended: all six canonical columns are present in every
sanitized output, and every cell of the four coerced columns (Task,
Status, Prioridade, Link) is string-typed whatever the source cell was;
Owner and Point of Contact may retain non-string source cells. -/
theorem claim_C1_amended (d : DataFrame) :
    (∀ n ∈ required, (sanitize_dataframe d).hasCol n = true) ∧
    (∀ n ∈ (["Task", "Status", "Prioridade", "Link"] : List String),
      ∃ l, (sanitize_dataframe d).getColumn n = some l ∧ ∀ c ∈ l, c.isStr = true) := by
  constructor
  · intro n hn
    exact hasCol_sanitize_required d n hn
  · intro n hn
    have hy : ∀ m, m ∈ required →
        (taskStage (ownerStage (injectRequired (normalize_and_deduplicate d)))).hasCol m
          = true := by
      intro m hm
      rw [hasCol_eq_of_names _ (injectRequired (normalize_and_deduplicate d))
        (by rw [names_taskStage, names_ownerStage]) m]
      exact hasCol_injectRequired _ m hm
    rcases List.mem_cons.mp hn with rfl | hn
    · -- Task
      have hhas : (ownerStage (injectRequired (normalize_and_deduplicate d))).hasCol "Task"
          = true := by
        rw [hasCol_eq_of_names _ (injectRequired (normalize_and_deduplicate d))
          (names_ownerStage _) "Task"]
        exact hasCol_injectRequired _ _ (by decide)
      obtain ⟨l₀, hl₀⟩ := Option.isSome_iff_exists.mp ((getColumn_isSome_iff _ "Task").mpr hhas)
      refine ⟨(l₀.map taskStr).filter taskKeep, ?_, ?_⟩
      · rw [getColumn_task_sanitize d, hl₀]
        rfl
      · intro c hc
        rcases List.mem_map.mp (List.mem_of_mem_filter hc) with ⟨a, -, ha⟩
        rw [← ha]
        exact taskStr_isStr a
    · rcases List.mem_cons.mp hn with rfl | hn
      · -- Status
        obtain ⟨l₁, hl₁⟩ := Option.isSome_iff_exists.mp
          ((getColumn_isSome_iff _ "Status").mpr (hy "Status" (by decide)))
        refine ⟨l₁.map (fillThenStr "Pendente"), ?_, ?_⟩
        · unfold sanitize_dataframe statusDefaults
          rw [getColumn_setColumn_ne _ _ _ _ (by decide)]
          rw [getColumn_setColumn_ne _ _ _ _ (by decide)]
          rw [getColumn_setColumn_same, hl₁]
          rfl
        · intro c hc
          rcases List.mem_map.mp hc with ⟨a, -, ha⟩
          rw [← ha]
          exact fillThenStr_isStr _ a
      · rcases List.mem_cons.mp hn with rfl | hn
        · -- Prioridade
          obtain ⟨l₁, hl₁⟩ := Option.isSome_iff_exists.mp
            ((getColumn_isSome_iff _ "Prioridade").mpr (hy "Prioridade" (by decide)))
          refine ⟨l₁.map (fillThenStr "Normal"), ?_, ?_⟩
          · unfold sanitize_dataframe statusDefaults
            rw [getColumn_setColumn_ne _ _ _ _ (by decide)]
            rw [getColumn_setColumn_same]
            rw [getColumn_setColumn_ne _ _ _ _ (by decide), hl₁]
            rfl
          · intro c hc
            rcases List.mem_map.mp hc with ⟨a, -, ha⟩
            rw [← ha]
            exact fillThenStr_isStr _ a
        · rcases List.mem_cons.mp hn with rfl | hn
          · -- Link
            obtain ⟨l₁, hl₁⟩ := Option.isSome_iff_exists.mp
              ((getColumn_isSome_iff _ "Link").mpr (hy "Link" (by decide)))
            refine ⟨l₁.map (fillThenStr ""), ?_, ?_⟩
            · unfold sanitize_dataframe statusDefaults
              rw [getColumn_setColumn_same]
              rw [getColumn_setColumn_ne _ _ _ _ (by decide)]
              rw [getColumn_setColumn_ne _ _ _ _ (by decide), hl₁]
              rfl
            · intro c hc
              rcases List.mem_map.mp hc with ⟨a, -, ha⟩
              rw [← ha]
              exact fillThenStr_isStr _ a
          · exact (List.not_mem_nil n hn).elim

/-- Witness for C1 (amended): the presence and string-typing facts
applied to a concrete frame. -/
theorem claim_C1_witness :
    (sanitize_dataframe ⟨[("Owner", [Cell.num 7]),
        ("Task", [Cell.str "work"])]⟩).hasCol "Owner" = true ∧
    (∃ l, (sanitize_dataframe ⟨[("Owner", [Cell.num 7]),
        ("Task", [Cell.str "work"])]⟩).getColumn "Status" = some l ∧
      ∀ c ∈ l, c.isStr = true) := by
  constructor
  · exact (claim_C1_amended ⟨[("Owner", [Cell.num 7]),
      ("Task", [Cell.str "work"])]⟩).1 "Owner" (by decide)
  · exact (claim_C1_amended ⟨[("Owner", [Cell.num 7]),
      ("Task", [Cell.str "work"])]⟩).2 "Status" (by decide)


/-! ### Duplicate-column collapse (C5) -/

theorem dedupGo_sublist :
    ∀ (l : List (String × List Cell)) (seen : List String),
      (dedupGo seen l).Sublist l := by
  intro l
  induction l with
  | nil => intro seen; exact List.Sublist.refl []
  | cons p t ih =>
    intro seen
    simp only [dedupGo]
    by_cases h : seen.contains p.1 = true
    · rw [if_pos h]
      exact (ih seen).cons p
    · rw [if_neg h]
      exact (ih (p.1 :: seen)).cons₂ p

theorem dedupGo_first :
    ∀ (l : List (String × List Cell)) (seen : List String) (p : String × List Cell),
      p ∈ dedupGo seen l →
        seen.contains p.1 = false ∧ l.find? (fun q => q.1 == p.1) = some p := by
  intro l
  induction l with
  | nil =>
    intro seen p h
    simp [dedupGo] at h
  | cons q t ih =>
    intro seen p h
    simp only [dedupGo] at h
    by_cases hc : seen.contains q.1 = true
    · rw [if_pos hc] at h
      obtain ⟨h1, h2⟩ := ih seen p h
      have hne : ¬(q.1 == p.1) = true := by
        intro he
        rw [eq_of_beq he] at hc
        rw [hc] at h1
        cases h1
      exact ⟨h1, by
        rw [List.find?_cons_of_neg (p := fun r : String × List Cell => r.1 == p.1) _ hne]
        exact h2⟩
    · rw [if_neg hc] at h
      rcases List.mem_cons.mp h with rfl | ht
      · refine ⟨?_, ?_⟩
        · cases hcp : seen.contains p.1
          · rfl
          · exact absurd hcp hc
        · exact List.find?_cons_of_pos (p := fun r : String × List Cell => r.1 == p.1) _
            (beq_self_eq_true p.1)
      · obtain ⟨h1, h2⟩ := ih (q.1 :: seen) p ht
        have h1' : (p.1 == q.1 || seen.contains p.1) = false := by
          rw [← List.contains_cons]
          exact h1
        have hpq : (p.1 == q.1) = false := by
          cases he : (p.1 == q.1)
          · rfl
          · rw [he] at h1'; cases h1'
        have hseen : seen.contains p.1 = false := by
          cases he : seen.contains p.1
          · rfl
          · rw [he, Bool.or_true] at h1'; cases h1'
        refine ⟨hseen, ?_⟩
        have hqp : ¬(q.1 == p.1) = true := by
          intro he
          rw [eq_of_beq he, beq_self_eq_true] at hpq
          cases hpq
        rw [List.find?_cons_of_neg (p := fun r : String × List Cell => r.1 == p.1) _ hqp]
        exact h2

theorem dedupGo_nodup :
    ∀ (l : List (String × List Cell)) (seen : List String),
      ((dedupGo seen l).map Prod.fst).Nodup := by
  intro l
  induction l with
  | nil => intro seen; simp [dedupGo]
  | cons q t ih =>
    intro seen
    simp only [dedupGo]
    by_cases hc : seen.contains q.1 = true
    · rw [if_pos hc]
      exact ih seen
    · rw [if_neg hc]
      simp only [List.map_cons, List.nodup_cons]
      refine ⟨?_, ih (q.1 :: seen)⟩
      intro hmem
      rcases List.mem_map.mp hmem with ⟨p, hp, hfst⟩
      have h1 := (dedupGo_first t (q.1 :: seen) p hp).1
      rw [List.contains_cons, hfst, beq_self_eq_true] at h1
      cases h1

theorem dedupGo_complete :
    ∀ (l : List (String × List Cell)) (seen : List String) (p : String × List Cell),
      p ∈ l → seen.contains p.1 = false →
        ∃ q ∈ dedupGo seen l, q.1 = p.1 := by
  intro l
  induction l with
  | nil => intro seen p h _; cases h
  | cons r t ih =>
    intro seen p h hseen
    simp only [dedupGo]
    by_cases hc : seen.contains r.1 = true
    · rw [if_pos hc]
      rcases List.mem_cons.mp h with rfl | ht
      · rw [hseen] at hc; cases hc
      · exact ih seen p ht hseen
    · rw [if_neg hc]
      by_cases hpr : (p.1 == r.1) = true
      · exact ⟨r, List.mem_cons_self r _, (eq_of_beq hpr).symm⟩
      · rcases List.mem_cons.mp h with rfl | ht
        · exact (hpr (beq_self_eq_true p.1)).elim
        · have hseen' : (r.1 :: seen).contains p.1 = false := by
            rw [List.contains_cons, hseen]
            cases he : (p.1 == r.1)
            · rfl
            · exact absurd he hpr
          obtain ⟨q, hq, hq1⟩ := ih (r.1 :: seen) p ht hseen'
          exact ⟨q, List.mem_cons_of_mem r hq, hq1⟩

/-- C5: after renaming onto the canonical schema, the duplicate-column
collapse keeps, for each label, exactly the first column with that label
in original order (the result is a label-nodup, order-preserving
sublist covering every label), and on the concrete header
`["Owner","Task","Task"]` with two differing Task columns only the
first Task column survives. -/
theorem claim_C5 :
    (∀ l : List (String × List Cell),
      (dedupCols l).Sublist l ∧
      ((dedupCols l).map Prod.fst).Nodup ∧
      (∀ p ∈ dedupCols l, l.find? (fun q => q.1 == p.1) = some p) ∧
      (∀ p ∈ l, ∃ q ∈ dedupCols l, q.1 = p.1)) ∧
    normalize_and_deduplicate ⟨[("Owner", [Cell.str "Ana"]), ("Task", [Cell.str "alpha"]),
        ("Task", [Cell.str "beta"])]⟩
      = ⟨[("Owner", [Cell.str "Ana"]), ("Task", [Cell.str "alpha"])]⟩ := by
  constructor
  · intro l
    refine ⟨dedupGo_sublist l [], dedupGo_nodup l [], ?_, ?_⟩
    · intro p hp
      exact (dedupGo_first l [] p hp).2
    · intro p hp
      exact dedupGo_complete l [] p hp rfl
  · decide

/-- Witness for C5: the collapse facts applied to a concrete duplicated
column list. -/
theorem claim_C5_witness :
    ((dedupCols [("Task", [Cell.str "alpha"]), ("Task", [Cell.str "beta"])]).map
        Prod.fst).Nodup ∧
    [("Task", [Cell.str "alpha"]), ("Task", [Cell.str "beta"])].find?
        (fun q => q.1 == "Task") = some ("Task", [Cell.str "alpha"]) := by
  constructor
  · exact (claim_C5.1 [("Task", [Cell.str "alpha"]), ("Task", [Cell.str "beta"])]).2.1
  · exact (claim_C5.1 [("Task", [Cell.str "alpha"]), ("Task", [Cell.str "beta"])]).2.2.1
      ("Task", [Cell.str "alpha"]) (by decide)


/-! ### The weekly block splitter (C4, C6) -/

theorem mem_putKey (m : List (String × DataFrame)) (k : String) (v : DataFrame)
    (q : String × DataFrame) (h : q ∈ putKey m k v) : q ∈ m ∨ q = (k, v) := by
  unfold putKey at h
  by_cases hc : m.any (fun p => p.1 == k) = true
  · rw [if_pos hc] at h
    rcases List.mem_map.mp h with ⟨p, hp, he⟩
    by_cases hpk : (p.1 == k) = true
    · right
      rw [← he, if_pos hpk]
    · left
      rw [← he, if_neg hpk]
      exact hp
  · rw [if_neg hc] at h
    rcases List.mem_append.mp h with h1 | h2
    · left; exact h1
    · right; exact List.mem_singleton.mp h2

theorem map_fst_putKey_overwrite (k : String) (v : DataFrame) :
    ∀ m : List (String × DataFrame),
      (m.map (fun p => if p.1 == k then (k, v) else p)).map Prod.fst = m.map Prod.fst := by
  intro m
  induction m with
  | nil => rfl
  | cons p t ih =>
    simp only [List.map_cons]
    refine congrArg₂ List.cons ?_ ih
    by_cases hpk : (p.1 == k) = true
    · rw [if_pos hpk]
      exact (eq_of_beq hpk).symm
    · rw [if_neg hpk]

theorem keys_putKey_nodup (m : List (String × DataFrame)) (k : String) (v : DataFrame)
    (h : (m.map Prod.fst).Nodup) : ((putKey m k v).map Prod.fst).Nodup := by
  unfold putKey
  by_cases hc : m.any (fun p => p.1 == k) = true
  · rw [if_pos hc]
    rw [map_fst_putKey_overwrite]
    exact h
  · rw [if_neg hc]
    rw [List.map_append, List.nodup_append]
    refine ⟨h, List.nodup_singleton k, ?_⟩
    intro a ha hb
    have hak : a = k := by simpa using hb
    subst hak
    rcases List.mem_map.mp ha with ⟨p, hp, hpk⟩
    apply hc
    rw [List.any_eq_true]
    exact ⟨p, hp, beq_iff_eq.mpr hpk⟩

theorem mem_weekStep (g : Grid) (hi : Nat) (m : List (String × DataFrame)) (s : Nat)
    (q : String × DataFrame) (h : q ∈ weekStep g hi m s) :
    q ∈ m ∨
      ((q.1 = weekBase g hi s ∨ q.1 = weekBase g hi s ++ " (" ++ toString s ++ ")") ∧
        s + 6 ≤ g.ncols ∧ q.2 = sanitize_dataframe (blockDF g hi s) ∧
        (sanitize_dataframe (blockDF g hi s)).empty = false) := by
  unfold weekStep at h
  by_cases hw : s + 6 ≤ g.ncols
  · rw [if_pos hw] at h
    by_cases he : (sanitize_dataframe (blockDF g hi s)).empty = true
    · rw [if_pos he] at h
      left; exact h
    · rw [if_neg he] at h
      rcases mem_putKey _ _ _ _ h with h1 | h2
      · left; exact h1
      · right
        refine ⟨?_, hw, ?_, ?_⟩
        · rw [h2]
          unfold weekName
          split
          · right; rfl
          · left; rfl
        · rw [h2]
        · cases hee : (sanitize_dataframe (blockDF g hi s)).empty
          · rfl
          · exact absurd hee he
  · rw [if_neg hw] at h
    left; exact h

theorem keys_weekStep_nodup (g : Grid) (hi : Nat) (m : List (String × DataFrame)) (s : Nat)
    (h : (m.map Prod.fst).Nodup) : ((weekStep g hi m s).map Prod.fst).Nodup := by
  unfold weekStep
  by_cases hw : s + 6 ≤ g.ncols
  · rw [if_pos hw]
    by_cases he : (sanitize_dataframe (blockDF g hi s)).empty = true
    · rw [if_pos he]; exact h
    · rw [if_neg he]
      exact keys_putKey_nodup _ _ _ h
  · rw [if_neg hw]; exact h

theorem weekFold_mem (g : Grid) (hi : Nat) :
    ∀ (pending : List Nat) (m : List (String × DataFrame)) (q : String × DataFrame),
      q ∈ weekFold g hi pending m →
        q ∈ m ∨ ∃ s ∈ pending,
          (q.1 = weekBase g hi s ∨ q.1 = weekBase g hi s ++ " (" ++ toString s ++ ")") ∧
          s + 6 ≤ g.ncols ∧ q.2 = sanitize_dataframe (blockDF g hi s) ∧
          (sanitize_dataframe (blockDF g hi s)).empty = false := by
  intro pending
  induction pending with
  | nil => intro m q h; left; exact h
  | cons s rest ih =>
    intro m q h
    rcases ih (weekStep g hi m s) q h with h0 | ⟨s', hs', hrest⟩
    · rcases mem_weekStep g hi m s q h0 with h1 | h2
      · left; exact h1
      · right; exact ⟨s, List.mem_cons_self s rest, h2⟩
    · right; exact ⟨s', List.mem_cons_of_mem s hs', hrest⟩

theorem weekFold_nodup (g : Grid) (hi : Nat) :
    ∀ (pending : List Nat) (m : List (String × DataFrame)),
      (m.map Prod.fst).Nodup → ((weekFold g hi pending m).map Prod.fst).Nodup := by
  intro pending
  induction pending with
  | nil => intro m h; exact h
  | cons s rest ih =>
    intro m h
    exact ih _ (keys_weekStep_nodup g hi m s h)

/-- The sliced block is always exactly six columns wide. -/
theorem blockDF_width (g : Grid) (hi s : Nat) : (blockDF g hi s).cols.length = 6 := by
  unfold blockDF
  rw [List.length_map, List.length_range]

/-- C6: every key of the weekly mapping is the trimmed cell one row
above the header at the block's start column (when present, non-blank
and not the text `nan`) or the fallback `"Sprint Indefinida"`, possibly
suffixed with the start offset on a collision; and the keys are pairwise
distinct. -/
theorem claim_C6 (g : Grid) :
    ((load_weekly_data (some g)).map Prod.fst).Nodup ∧
    (load_weekly_data (some g)).Forall (fun q => ∃ hi, findHeaderW g = some hi ∧
      ∃ s ∈ weekStarts g hi,
        q.1 = weekBase g hi s ∨ q.1 = weekBase g hi s ++ " (" ++ toString s ++ ")") := by
  simp only [load_weekly_data]
  by_cases hlen : g.rows.length < 2
  · rw [if_pos hlen]
    exact ⟨List.nodup_nil, trivial⟩
  · rw [if_neg hlen]
    cases hf : findHeaderW g with
    | none => exact ⟨List.nodup_nil, trivial⟩
    | some hi =>
      constructor
      · exact weekFold_nodup g hi (weekStarts g hi) [] List.nodup_nil
      · rw [List.forall_iff_forall_mem]
        intro q hq
        rcases weekFold_mem g hi (weekStarts g hi) [] q hq with h0 | ⟨s, hs, hdis, -⟩
        · cases h0
        · exact ⟨hi, rfl, s, hs, hdis⟩

/-- Witness for C6 at the two-block grid `exGridC6`: the mapping really
contains two entries, the colliding label `"W"` is disambiguated to
`"W (6)"` on the second block, and the key facts of `claim_C6` hold
there non-vacuously. -/
theorem claim_C6_witness :
    (load_weekly_data (some exGridC6)).map Prod.fst = ["W", "W (6)"] ∧
    ((load_weekly_data (some exGridC6)).map Prod.fst).Nodup ∧
    (load_weekly_data (some exGridC6)).Forall
      (fun q => ∃ hi, findHeaderW exGridC6 = some hi ∧
        ∃ s ∈ weekStarts exGridC6 hi,
          q.1 = weekBase exGridC6 hi s ∨
          q.1 = weekBase exGridC6 hi s ++ " (" ++ toString s ++ ")") :=
  ⟨by decide, (claim_C6 exGridC6).1, (claim_C6 exGridC6).2⟩

/-- C4: every table in the weekly mapping is the sanitized 6-column
slice `[start, start + 6)` of the rows strictly below the header at some
detected block start whose six columns fit inside the grid, and only
non-empty sanitized slices are emitted. -/
theorem claim_C4 (g : Grid) :
    (load_weekly_data (some g)).Forall (fun q => ∃ hi, findHeaderW g = some hi ∧
      ∃ s ∈ weekStarts g hi, s + 6 ≤ g.ncols ∧ (blockDF g hi s).cols.length = 6 ∧
        q.2 = sanitize_dataframe (blockDF g hi s) ∧ q.2.empty = false) := by
  simp only [load_weekly_data]
  by_cases hlen : g.rows.length < 2
  · rw [if_pos hlen]
    exact trivial
  · rw [if_neg hlen]
    cases hf : findHeaderW g with
    | none => exact trivial
    | some hi =>
      rw [List.forall_iff_forall_mem]
      intro q hq
      rcases weekFold_mem g hi (weekStarts g hi) [] q hq with h0 | ⟨s, hs, -, hw, hdf, hne⟩
      · cases h0
      · refine ⟨hi, rfl, s, hs, hw, blockDF_width g hi s, hdf, ?_⟩
        rw [hdf]
        exact hne

/-- Witness for C4 at a concrete one-block grid. -/
theorem claim_C4_witness :
    (load_weekly_data (some exGridW)).Forall (fun q => ∃ hi,
      findHeaderW exGridW = some hi ∧
      ∃ s ∈ weekStarts exGridW hi, s + 6 ≤ exGridW.ncols ∧
        (blockDF exGridW hi s).cols.length = 6 ∧
        q.2 = sanitize_dataframe (blockDF exGridW hi s) ∧ q.2.empty = false) :=
  claim_C4 exGridW


/-! ### The encoding cascade (C9) -/

/-- C9: the byte decoder tries UTF-8 first and then the three Western
legacy codecs in order, using the first that decodes without error (some
candidate always succeeds, because Latin-1 is total); and the concrete
byte pair `C7 61`, invalid UTF-8 but valid Latin-1 (`"Ça"`), still
yields a non-empty grid through the second candidate. -/
theorem claim_C9 :
    (∀ bs : List Nat, ∃ k, k < decodeAttempts.length ∧
        (∀ j, j < k → (decodeAttempts.getD j latin1Decode) bs = none) ∧
        ∃ cps, (decodeAttempts.getD k latin1Decode) bs = some cps ∧
          decodeCascade bs = some (parseGrid (cpsToString cps))) ∧
    utf8Decode [199, 97] = none ∧
    decodeCascade [199, 97] = some (parseGrid (cpsToString [199, 97])) ∧
    (parseGrid (cpsToString [199, 97])).rows ≠ [] := by
  refine ⟨?_, by decide, by decide, by decide⟩
  intro bs
  cases h : utf8Decode bs with
  | some cps =>
    refine ⟨0, by simp [decodeAttempts], fun j hj => absurd hj (by omega), cps, h, ?_⟩
    simp only [decodeCascade, decodeAttempts, cascadeGrid, h]
  | none =>
    refine ⟨1, by simp [decodeAttempts], ?_, bs, rfl, ?_⟩
    · intro j hj
      have hj0 : j = 0 := by omega
      subst hj0
      exact h
    · simp only [decodeCascade, decodeAttempts, cascadeGrid, h, latin1Decode]

/-- Witness for C9: the cascade characterization applied to the
concrete invalid-UTF-8 byte pair. -/
theorem claim_C9_witness :
    ∃ k, k < decodeAttempts.length ∧
      (∀ j, j < k → (decodeAttempts.getD j latin1Decode) [199, 97] = none) ∧
      ∃ cps, (decodeAttempts.getD k latin1Decode) [199, 97] = some cps ∧
        decodeCascade [199, 97] = some (parseGrid (cpsToString cps)) :=
  claim_C9.1 [199, 97]

end Aura
